import Mathlib

/-!
Verification of the IPL dashboard analytics core (src/app.py) against its
specification.  The Python source computes, over pandas tables: derived
match fields (`winner`, `margin`), a per-team chronological series, a
rolling average, z-score based outliers, a linear-regression trend
prediction, and composite player scores.  Numeric columns are embedded as
exact rationals (the float computation's ideal value); float results that
are not finite numbers (NaN or ±inf, which arise from division by zero)
are embedded as `none` in an `Option ℚ`.
-/

/-- A row of the match table after ingestion, with the columns required by
src/app.py line 55: `match_id, date, team1, team2, venue, runs_team1,
runs_team2`.  `date` is the parsed timestamp, embedded as an integer
(datetime64 is an int64 tick count), `runs_*` as rationals. -/
structure MatchRow where
  matchId : Nat
  date : Int
  team1 : String
  team2 : String
  venue : String
  runsTeam1 : ℚ
  runsTeam2 : ℚ
  deriving DecidableEq, Repr, Inhabited

/-- Line 61: `df["winner"] = df.apply(lambda r: r["team1"] if
r["runs_team1"] > r["runs_team2"] else r["team2"], axis=1)`. -/
def winner (r : MatchRow) : String :=
  if r.runsTeam1 > r.runsTeam2 then r.team1 else r.team2

/-- Line 62: `df["margin"] = (df["runs_team1"] - df["runs_team2"]).abs()`. -/
def margin (r : MatchRow) : ℚ :=
  |r.runsTeam1 - r.runsTeam2|

/-- A row of the player table, with the columns required by src/app.py
line 151: `player_name, team, runs, wickets, strike_rate, economy`. -/
structure PlayerRow where
  playerName : String
  team : String
  runs : ℚ
  wickets : ℚ
  strikeRate : ℚ
  economy : ℚ
  deriving DecidableEq, Repr, Inhabited

/-- pandas `Series.max()` over one numeric column of the player table.
On an empty table pandas yields NaN; the claims only concern nonempty
tables, so the empty case carries an arbitrary value. -/
def maxCol (f : PlayerRow → ℚ) : List PlayerRow → ℚ
  | [] => 0
  | p :: ps => (ps.map f).foldl max (f p)

/-- pandas `Series.min()` over one numeric column of the player table. -/
def minCol (f : PlayerRow → ℚ) : List PlayerRow → ℚ
  | [] => 0
  | p :: ps => (ps.map f).foldl min (f p)

/-- Float division as the source performs it: a zero denominator yields a
non-finite float (NaN for 0/0, ±inf otherwise), embedded as `none`;
otherwise the exact quotient. -/
def fdiv (a b : ℚ) : Option ℚ := if b = 0 then none else some (a / b)

/-- Scaling a possibly non-finite float by a nonzero finite constant:
NaN and ±inf stay non-finite, finite values scale exactly. -/
def fscale (o : Option ℚ) (c : ℚ) : Option ℚ := o.map (· * c)

/-- Float addition: any non-finite operand makes the result non-finite
(NaN propagates; inf plus a finite value is inf). -/
def fadd : Option ℚ → Option ℚ → Option ℚ
  | some x, some y => some (x + y)
  | none, _ => none
  | some _, none => none

/-- Lines 185-188: `bat_score = (runs / runs.max()) * 0.6 +
(strike_rate / strike_rate.max()) * 0.4`. -/
def batScore (tbl : List PlayerRow) (p : PlayerRow) : Option ℚ :=
  fadd (fscale (fdiv p.runs (maxCol PlayerRow.runs tbl)) 0.6)
       (fscale (fdiv p.strikeRate (maxCol PlayerRow.strikeRate tbl)) 0.4)

/-- Lines 189-192: `bowl_score = (wickets / wickets.max()) * 0.7 +
(economy.min() / economy) * 0.3`. -/
def bowlScore (tbl : List PlayerRow) (p : PlayerRow) : Option ℚ :=
  fadd (fscale (fdiv p.wickets (maxCol PlayerRow.wickets tbl)) 0.7)
       (fscale (fdiv (minCol PlayerRow.economy tbl) p.economy) 0.3)

/-- Line 193: `performance_index = (bat_score + bowl_score) / 2`. -/
def perfIndex (tbl : List PlayerRow) (p : PlayerRow) : Option ℚ :=
  (fadd (batScore tbl p) (bowlScore tbl p)).map (· / 2)

/-- A one-player table whose only `runs` value is 0, so `runs.max() = 0`. -/
def degenTable : List PlayerRow := [⟨"Lone", "CSK", 0, 1, 10, 5⟩]

/-- A two-player table where the first player holds every favourable
extreme: maximum runs, strike rate and wickets, minimum economy. -/
def topTable : List PlayerRow :=
  [⟨"Ace", "CSK", 500, 20, 150, 6⟩, ⟨"Sub", "MI", 300, 10, 120, 8⟩]

/-- A cell of the freshly read match table: pandas holds either a parsed
number or, under object dtype, an arbitrary string. -/
inductive Cell where
  | num (q : ℚ)
  | txt (s : String)
  deriving DecidableEq, Repr

/-- The raw uploaded table, column-oriented: column names (already
lower-cased and trimmed by line 52) paired with their cells. -/
abbrev RawTable := List (String × List Cell)

/-- Line 55: the required column names. -/
def requiredCols : List String :=
  ["match_id", "date", "team1", "team2", "venue", "runs_team1", "runs_team2"]

/-- The column names of a raw table. -/
def colNames (t : RawTable) : List String := t.map Prod.fst

/-- The cells of the named column, or an empty column when absent. -/
def getCol (t : RawTable) (name : String) : List Cell :=
  match t.find? (fun c => c.1 == name) with
  | some c => c.2
  | none => []

/-- Python's `<` on strings: lexicographic comparison of code points. -/
def charListLt : List Char → List Char → Bool
  | [], [] => false
  | [], _ :: _ => true
  | _ :: _, [] => false
  | a :: as, b :: bs =>
      if a < b then true else if b < a then false else charListLt as bs

/-- Python's `>` between two cells: numbers compare numerically, strings
lexicographically; comparing a number with a string raises TypeError,
embedded as `none`. -/
def cellGT : Cell → Cell → Option Bool
  | .num x, .num y => some (decide (y < x))
  | .txt s, .txt u => some (charListLt u.toList s.toList)
  | _, _ => none

/-- Python's `abs(a - b)` between two cells: defined for numbers only;
subtraction involving a string raises TypeError, embedded as `none`. -/
def cellAbsSub : Cell → Cell → Option ℚ
  | .num x, .num y => some |x - y|
  | _, _ => none

/-- Row-wise evaluation as `DataFrame.apply` performs it: the first
raised exception (a `none` result) aborts the whole computation. -/
def applyRows {β : Type} (f : Nat → Option β) : List Nat → Option (List β)
  | [] => some []
  | i :: is =>
    match f i with
    | none => none
    | some b =>
      match applyRows f is with
      | none => none
      | some bs => some (b :: bs)

/-- Line 61 on the raw table: the per-row winner cell, or `none` when a
row comparison raises TypeError. -/
def computeWinners (t : RawTable) : Option (List Cell) :=
  applyRows (fun i =>
    (cellGT ((getCol t "runs_team1").getD i (.num 0))
            ((getCol t "runs_team2").getD i (.num 0))).bind (fun b =>
      some (if b then (getCol t "team1").getD i (.num 0)
            else (getCol t "team2").getD i (.num 0))))
    (List.range (getCol t "runs_team1").length)

/-- Line 62 on the raw table: the per-row margin, or `none` when the
subtraction raises TypeError. -/
def computeMargins (t : RawTable) : Option (List ℚ) :=
  applyRows (fun i =>
    cellAbsSub ((getCol t "runs_team1").getD i (.num 0))
               ((getCol t "runs_team2").getD i (.num 0)))
    (List.range (getCol t "runs_team1").length)

/-- Outcome of lines 55-62: the validation gate halts with the missing
column names, or a later unhandled TypeError crashes the script, or the
derived winner and margin columns are produced. -/
inductive PipeResult where
  | invalidTable (missing : List String)
  | typeCrash
  | ok (winners : List Cell) (margins : List ℚ)
  deriving DecidableEq, Repr

/-- Lines 55-62 in source order: validation checks only that every
required column name is present (`set(required_cols).issubset`); winner
(line 61) and then margin (line 62) are computed afterwards, where
incomparable or non-subtractable cells raise an unhandled TypeError. -/
def runPipeline (t : RawTable) : PipeResult :=
  let missing := requiredCols.filter (fun c => !(colNames t).contains c)
  if missing.isEmpty then
    match computeWinners t with
    | none => .typeCrash
    | some ws =>
      match computeMargins t with
      | none => .typeCrash
      | some ms => .ok ws ms
  else .invalidTable missing

/-- Both runs columns hold numbers only. -/
def runsNumeric (t : RawTable) : Bool :=
  (getCol t "runs_team1" ++ getCol t "runs_team2").all
    (fun c => match c with | .num _ => true | .txt _ => false)

/-- A table with every required column present but string-valued runs. -/
def badRunsTable : RawTable :=
  [("match_id", [.num 1]), ("date", [.num 0]), ("team1", [.txt "CSK"]),
   ("team2", [.txt "MI"]), ("venue", [.txt "Chepauk"]),
   ("runs_team1", [.txt "abc"]), ("runs_team2", [.txt "abd"])]

/-- A fully valid one-row table with numeric runs. -/
def goodTable : RawTable :=
  [("match_id", [.num 1]), ("date", [.num 0]), ("team1", [.txt "CSK"]),
   ("team2", [.txt "MI"]), ("venue", [.txt "Chepauk"]),
   ("runs_team1", [.num 180]), ("runs_team2", [.num 150])]

/-- A table missing the `runs_team2` column. -/
def shortTable : RawTable :=
  [("match_id", [.num 1]), ("date", [.num 0]), ("team1", [.txt "CSK"]),
   ("team2", [.txt "MI"]), ("venue", [.txt "Chepauk"]),
   ("runs_team1", [.num 180])]

/-- Line 98: `team_df["team_runs"].rolling(5).mean()` — at each position
the mean of the window ending there, and NaN (embedded as `none`) while
fewer than 5 observations exist, since `min_periods` defaults to the
window size. -/
def rollingMean5 (xs : List ℚ) : List (Option ℚ) :=
  (List.range xs.length).map (fun i =>
    if i + 1 < 5 then none
    else some (((xs.drop (i + 1 - 5)).take 5).sum / 5))

/-- The arithmetic mean, pandas `Series.mean()`. -/
def meanQ (xs : List ℚ) : ℚ := xs.sum / xs.length

/-- The sum of squared deviations from the mean. -/
def sqDev (xs : List ℚ) : ℚ := (xs.map (fun x => (x - meanQ xs) ^ 2)).sum

/-- The population variance (divisor n): `scipy.stats.zscore` at line 126
standardizes with its default `ddof = 0`. -/
def popVar (xs : List ℚ) : ℚ := sqDev xs / xs.length

/-- The square of the z-score of line 126.  `stats.zscore` divides by the
population standard deviation `sqrt(popVar)`, an irrational number, so
the embedding carries the exact square `z² = (x − mean)²/popVar`; the
mask `|z| > 2` is the decidable condition `z² > 4`.  A zero standard
deviation makes the float z-score NaN (0/0 in numpy), embedded `none`. -/
def zScoreSq (xs : List ℚ) (x : ℚ) : Option ℚ :=
  if popVar xs = 0 then none else some ((x - meanQ xs) ^ 2 / popVar xs)

/-- Line 126-127's boolean mask `np.abs(stats.zscore(...)) > 2`: a NaN
z-score compares false in float semantics. -/
def zFlag (xs : List ℚ) (x : ℚ) : Bool :=
  match zScoreSq xs x with
  | none => false
  | some t => decide (4 < t)

/-- Line 127: `outliers = team_df[z > 2]` — the observations whose
absolute z-score exceeds 2, in original order. -/
def outliers (xs : List ℚ) : List ℚ := xs.filter (zFlag xs)

/-- The sample-standard-deviation (ddof = 1) flagging rule that the claim
rules out, stated from the claim's words for comparison: flag x when
(x − mean)² > 4·sqDev/(n − 1). -/
def outliersSampleRule (xs : List ℚ) : List ℚ :=
  xs.filter (fun x =>
    decide (4 * (sqDev xs / ((xs.length : ℚ) - 1)) < (x - meanQ xs) ^ 2))

/-- The sum of the regressor indices 0..n−1 (`X = np.arange(n)`, line
136). -/
def sumIdx (n : Nat) : ℚ := ∑ i ∈ Finset.range n, (i : ℚ)

/-- The sum of squared regressor indices. -/
def sumIdxSq (n : Nat) : ℚ := ∑ i ∈ Finset.range n, (i : ℚ) ^ 2

/-- The sum of the observations. -/
def sumY (xs : List ℚ) : ℚ := ∑ i ∈ Finset.range xs.length, xs.getD i 0

/-- The sum of index-times-observation products. -/
def sumIdxY (xs : List ℚ) : ℚ :=
  ∑ i ∈ Finset.range xs.length, (i : ℚ) * xs.getD i 0

/-- The slope sklearn's `LinearRegression().fit(X, y)` computes at line
138 — the exact least-squares closed form over the index regressor. -/
def olsSlope (xs : List ℚ) : ℚ :=
  ((xs.length : ℚ) * sumIdxY xs - sumIdx xs.length * sumY xs) /
    ((xs.length : ℚ) * sumIdxSq xs.length - sumIdx xs.length ^ 2)

/-- The fitted intercept. -/
def olsIntercept (xs : List ℚ) : ℚ :=
  (sumY xs - olsSlope xs * sumIdx xs.length) / xs.length

/-- Lines 135-142: with at least 5 matches the model predicts at index n
(`model.predict([[len(team_df)]])[0]`), otherwise the user sees the
"Need at least 5 matches" message, embedded as `none`. -/
def predictNext (xs : List ℚ) : Option ℚ :=
  if xs.length < 5 then none
  else some (olsIntercept xs + olsSlope xs * xs.length)

/-- The sum of squared errors of the affine model `a + b·i` on the
series, the objective that least squares minimizes. -/
def sse (xs : List ℚ) (a b : ℚ) : ℚ :=
  ∑ i ∈ Finset.range xs.length, (xs.getD i 0 - (a + b * i)) ^ 2

/-- Line 70: `df[(df.team1 == team) | (df.team2 == team)]` — the rows in
which the team appears on either side, in original order. -/
def teamRows (rows : List MatchRow) (team : String) : List MatchRow :=
  rows.filter (fun r => r.team1 == team || r.team2 == team)

/-- Line 71: `team_runs` — `runs_team1` when the team played as team1,
else `runs_team2`. -/
def teamRuns (r : MatchRow) (team : String) : ℚ :=
  if r.team1 = team then r.runsTeam1 else r.runsTeam2

/-- INTP_SWAP of two positions of the index array. -/
def lswap (t : List Nat) (i j : Nat) : List Nat :=
  let a := t.getD i 0
  let b := t.getD j 0
  (t.set i b).set j a

/-- The key under an index-array position: `v[*p]` in npysort. -/
def kval (keys : List Int) (t : List Nat) (pos : Nat) : Int :=
  keys.getD (t.getD pos 0) 0

/-- The inner shifting loop of npysort's indirect insertion sort:
`while (pj > pl && LT(vp, v[*pk])) *pj-- = *pk--;`.  Structural fuel
(first argument) stands for the loop bound; `fuel = pj` always
suffices. -/
def insShift (keys : List Int) (vp : Int) (pl : Nat) :
    Nat → Nat → List Nat → List Nat × Nat
  | 0, pj, t => (t, pj)
  | fuel + 1, pj, t =>
    if pl < pj ∧ vp < kval keys t (pj - 1) then
      insShift keys vp pl fuel (pj - 1) (t.set pj (t.getD (pj - 1) 0))
    else (t, pj)

/-- npysort's indirect insertion sort over the segment [pl, pr]. -/
def insLoop (keys : List Int) (pl pr : Nat) :
    Nat → Nat → List Nat → List Nat
  | 0, _, t => t
  | fuel + 1, pi, t =>
    if pi ≤ pr then
      let vi := t.getD pi 0
      let vp := keys.getD vi 0
      let s := insShift keys vp pl pi pi t
      insLoop keys pl pr fuel (pi + 1) (s.1.set s.2 vi)
    else t

/-- The sift-down loop shared by both phases of npysort's `aheapsort`
(1-based heap indices; `base + k - 1` is the position of heap index k). -/
def siftLoop (keys : List Int) (base n : Nat) (tmpv : Nat) :
    Nat → Nat → Nat → List Nat → List Nat × Nat
  | 0, i, _, t => (t, i)
  | fuel + 1, i, j, t =>
    if j ≤ n then
      let j' := if j < n ∧ kval keys t (base + j - 1) < kval keys t (base + j)
        then j + 1 else j
      if keys.getD tmpv 0 < kval keys t (base + j' - 1) then
        siftLoop keys base n tmpv fuel j' (j' + j')
          (t.set (base + i - 1) (t.getD (base + j' - 1) 0))
      else (t, i)
    else (t, i)

/-- The heap-construction phase of `aheapsort`: `for (l = n>>1; l > 0;
--l)` sift down from heap index l. -/
def heapifyLoop (keys : List Int) (base n : Nat) :
    Nat → List Nat → List Nat
  | 0, t => t
  | l + 1, t =>
    let tmpv := t.getD (base + l) 0
    let s := siftLoop keys base n tmpv (n + 1) (l + 1) ((l + 1) * 2) t
    heapifyLoop keys base n l (s.1.set (base + s.2 - 1) tmpv)

/-- The extraction phase of `aheapsort`: repeatedly move the root behind
the shrinking heap and re-sift. -/
def extractLoop (keys : List Int) (base : Nat) :
    Nat → List Nat → List Nat
  | 0, t => t
  | 1, t => t
  | n + 1, t =>
    let tmpv := t.getD (base + n) 0
    let t1 := t.set (base + n) (t.getD base 0)
    let s := siftLoop keys base n tmpv (n + 2) 1 2 t1
    extractLoop keys base n (s.1.set (base + s.2 - 1) tmpv)

/-- npysort's `aheapsort` on the n-element segment starting at `pl`, the
depth-exhaustion fallback of the introspective sort. -/
def aheapsortSeg (keys : List Int) (pl n : Nat) (t : List Nat) : List Nat :=
  extractLoop keys pl n (heapifyLoop keys pl n (n / 2) t)

/-- The partition scan `do ++pi; while (LT(v[*pi], vp));`. -/
def scanRight (keys : List Int) (vp : Int) :
    Nat → Nat → List Nat → Nat
  | 0, pi, _ => pi + 1
  | fuel + 1, pi, t =>
    let pi' := pi + 1
    if kval keys t pi' < vp then scanRight keys vp fuel pi' t
    else pi'

/-- The partition scan `do --pj; while (LT(vp, v[*pj]));`. -/
def scanLeft (keys : List Int) (vp : Int) :
    Nat → Nat → List Nat → Nat
  | 0, pj, _ => pj - 1
  | fuel + 1, pj, t =>
    let pj' := pj - 1
    if vp < kval keys t pj' then scanLeft keys vp fuel pj' t
    else pj'

/-- The Hoare-style exchange loop of `aquicksort`'s partition step,
returning the array and the final `pi`. -/
def partLoop (keys : List Int) (vp : Int) :
    Nat → Nat → Nat → List Nat → List Nat × Nat
  | 0, pi, _, t => (t, pi)
  | fuel + 1, pi, pj, t =>
    let pi' := scanRight keys vp t.length pi t
    let pj' := scanLeft keys vp t.length pj t
    if pi' ≥ pj' then (t, pi')
    else partLoop keys vp fuel pi' pj' (lswap t pi' pj')

/-- The driver of numpy's indirect introspective quicksort `aquicksort`
(numpy/core/src/npysort/quicksort.c.src): while the segment holds more
than SMALL_QUICKSORT = 15 elements, partition around a median-of-three
pivot — with a heapsort fallback once the shared depth budget runs out —
pushing the larger half on an explicit stack; small segments get an
insertion sort, then the next segment is popped. -/
def qsortLoop (keys : List Int) :
    Nat → List (Nat × Nat) → Nat → Nat → Int → List Nat → List Nat
  | 0, _, _, _, _, t => t
  | fuel + 1, stack, pl, pr, depth, t =>
    if pr - pl > 15 then
      if depth < 0 then
        let t' := aheapsortSeg keys pl (pr - pl + 1) t
        match stack with
        | [] => t'
        | (l, r) :: rest => qsortLoop keys fuel rest l r (depth - 1) t'
      else
        let pm := pl + (pr - pl) / 2
        let t1 := if kval keys t pm < kval keys t pl then lswap t pm pl else t
        let t2 := if kval keys t1 pr < kval keys t1 pm then lswap t1 pr pm else t1
        let t3 := if kval keys t2 pm < kval keys t2 pl then lswap t2 pm pl else t2
        let vp := kval keys t3 pm
        let t4 := lswap t3 pm (pr - 1)
        let s := partLoop keys vp (pr + 1) pl (pr - 1) t4
        let t5 := lswap s.1 s.2 (pr - 1)
        let pi := s.2
        if pi - pl < pr - pi then
          qsortLoop keys fuel ((pi + 1, pr) :: stack) pl (pi - 1) (depth - 1) t5
        else
          qsortLoop keys fuel ((pl, pi - 1) :: stack) (pi + 1) pr (depth - 1) t5
    else
      let t' := insLoop keys pl pr (pr + 2 - pl) (pl + 1) t
      match stack with
      | [] => t'
      | (l, r) :: rest => qsortLoop keys fuel rest l r depth t'

/-- npy_get_msb: the index of the highest set bit, with structural
fuel. -/
def npyMsbAux : Nat → Nat → Nat
  | 0, _ => 0
  | fuel + 1, n => if 2 ≤ n then npyMsbAux fuel (n / 2) + 1 else 0

/-- npy_get_msb of n (fuel n suffices since the argument halves). -/
def npyGetMsb (n : Nat) : Nat := npyMsbAux n n

/-- numpy `argsort(kind="quicksort")`, which pandas `sort_values` with
its default `kind` invokes through `nargsort`: run `aquicksort` over the
identity index array with depth budget `2·npy_get_msb(n)`.  The fuel
`4n + 16` bounds the partition and pop steps. -/
def npyArgsort (keys : List Int) : List Nat :=
  let n := keys.length
  qsortLoop keys (4 * n + 16) [] 0 (n - 1) (2 * (npyGetMsb n : Int))
    (List.range n)

/-- Line 72: `team_df.sort_values("date")` — reorder rows by the
quicksort argsort permutation of the date column. -/
def sortValuesByDate (rows : List MatchRow) : List MatchRow :=
  (npyArgsort (rows.map MatchRow.date)).map (fun i => rows.getD i default)

/-- Lines 70-72: the extracted team series — filter to the team's rows
and sort them by date. -/
def teamSeries (rows : List MatchRow) (team : String) : List MatchRow :=
  sortValuesByDate (teamRows rows team)

/-- Seventeen matches of team "A", all on the same date, numbered 0..16
in upload order. -/
def tieRows : List MatchRow :=
  (List.range 17).map (fun i => ⟨i, 0, "A", "B", "V", 100, 90⟩)

set_option maxRecDepth 100000

/-- C1: for every match row the winner is the team with strictly greater
runs whenever the runs differ, the winner is one of the two team fields,
and the margin is the absolute run difference, hence nonnegative and zero
exactly when the runs are equal. -/
theorem C1_winner_margin (r : MatchRow) :
    (r.runsTeam1 ≠ r.runsTeam2 →
      (r.runsTeam1 > r.runsTeam2 → winner r = r.team1) ∧
      (r.runsTeam2 > r.runsTeam1 → winner r = r.team2)) ∧
    (winner r = r.team1 ∨ winner r = r.team2) ∧
    margin r = |r.runsTeam1 - r.runsTeam2| ∧
    0 ≤ margin r ∧
    (margin r = 0 ↔ r.runsTeam1 = r.runsTeam2) := by
  unfold winner margin
  refine ⟨?_, ?_, rfl, abs_nonneg _, ?_⟩
  · intro _
    constructor
    · intro hgt; simp [hgt]
    · intro hgt
      have : ¬ r.runsTeam1 > r.runsTeam2 := not_lt.mpr (le_of_lt hgt)
      simp [this]
  · by_cases h : r.runsTeam1 > r.runsTeam2 <;> simp [h]
  · rw [abs_eq_zero, sub_eq_zero]

/-- C9: on a tie the winner is team2; team1 is named winner only when its
runs are strictly greater (stated for rows whose team names differ, as the
data model requires distinct team names). -/
theorem C9_tie_goes_to_team2 (r : MatchRow) :
    (r.runsTeam1 = r.runsTeam2 → winner r = r.team2) ∧
    (r.team1 ≠ r.team2 → winner r = r.team1 → r.runsTeam1 > r.runsTeam2) := by
  constructor
  · intro h; simp [winner, h]
  · intro hne hw
    by_contra hle
    simp [winner, hle] at hw
    exact hne hw.symm

/-- Witness for C9 at a concrete tied row. -/
theorem C9_tie_goes_to_team2_witness :
    winner ⟨1, 0, "CSK", "MI", "Chepauk", 150, 150⟩ = "MI" :=
  (C9_tie_goes_to_team2 ⟨1, 0, "CSK", "MI", "Chepauk", 150, 150⟩).1 rfl

/-- Witness for C1 at a concrete row, discharging the inner hypotheses. -/
theorem C1_winner_margin_witness :
    winner ⟨1, 0, "CSK", "MI", "Chepauk", 180, 150⟩ = "CSK" ∧
    margin ⟨1, 0, "CSK", "MI", "Chepauk", 180, 150⟩ = 30 := by
  refine ⟨((C1_winner_margin _).1 (by norm_num) ).1 (by norm_num), ?_⟩
  have h := (C1_winner_margin ⟨1, 0, "CSK", "MI", "Chepauk", 180, 150⟩).2.2.1
  rw [h]; norm_num

theorem fadd_none_left (b : Option ℚ) : fadd none b = none := by
  cases b <;> rfl

theorem fadd_none_right (a : Option ℚ) : fadd a none = none := by
  cases a <;> rfl

/-- C2 counterexample: on a table with `max_runs = 0` the scorer does not
produce a defined fallback value for `bat_score` — the division by the
zero maximum propagates a non-finite float (modelled by `none`). -/
theorem C2_counterexample :
    maxCol PlayerRow.runs degenTable = 0 ∧
    ∀ p ∈ degenTable, (batScore degenTable p).isSome = false := by
  decide

/-- C2 amended: when a column maximum used as a divisor is zero, or a
player's economy is zero, the affected score component is the propagated
non-finite float (`none`), not a defined numeric fallback, and it further
propagates into `performance_index`. -/
theorem C2_amended (tbl : List PlayerRow) (p : PlayerRow) :
    (maxCol PlayerRow.runs tbl = 0 → batScore tbl p = none) ∧
    (maxCol PlayerRow.strikeRate tbl = 0 → batScore tbl p = none) ∧
    (maxCol PlayerRow.wickets tbl = 0 → bowlScore tbl p = none) ∧
    (p.economy = 0 → bowlScore tbl p = none) ∧
    (batScore tbl p = none → perfIndex tbl p = none) ∧
    (bowlScore tbl p = none → perfIndex tbl p = none) := by
  refine ⟨fun h => ?_, fun h => ?_, fun h => ?_, fun h => ?_,
    fun h => ?_, fun h => ?_⟩
  · simp [batScore, fdiv, fscale, h, fadd_none_left]
  · simp [batScore, fdiv, fscale, h, fadd_none_right]
  · simp [bowlScore, fdiv, fscale, h, fadd_none_left]
  · simp [bowlScore, fdiv, fscale, h, fadd_none_right]
  · simp [perfIndex, h, fadd_none_left]
  · simp [perfIndex, h, fadd_none_right]

/-- Witness for C2 amended at the concrete degenerate table. -/
theorem C2_amended_witness :
    batScore degenTable ⟨"Lone", "CSK", 0, 1, 10, 5⟩ = none ∧
    perfIndex degenTable ⟨"Lone", "CSK", 0, 1, 10, 5⟩ = none := by
  have h := C2_amended degenTable ⟨"Lone", "CSK", 0, 1, 10, 5⟩
  have hmax : maxCol PlayerRow.runs degenTable = 0 := by decide
  exact ⟨h.1 hmax, h.2.2.2.2.1 (h.1 hmax)⟩

/-- C7: a player holding the table's maximum runs and maximum strike rate
attains bat_score exactly 1, and if it additionally holds the maximum
wickets and the minimum economy, performance_index is exactly 1 — under
positive column maxima and positive economies. -/
theorem C7_top_player (tbl : List PlayerRow) (p : PlayerRow)
    (h1 : p.runs = maxCol PlayerRow.runs tbl)
    (h2 : p.strikeRate = maxCol PlayerRow.strikeRate tbl)
    (hr : 0 < maxCol PlayerRow.runs tbl)
    (hs : 0 < maxCol PlayerRow.strikeRate tbl)
    (heco : 0 < p.economy) :
    batScore tbl p = some 1 ∧
    (p.wickets = maxCol PlayerRow.wickets tbl →
     p.economy = minCol PlayerRow.economy tbl →
     0 < maxCol PlayerRow.wickets tbl →
     perfIndex tbl p = some 1) := by
  have hbat : batScore tbl p = some 1 := by
    unfold batScore fdiv
    rw [if_neg hr.ne', if_neg hs.ne', h1, h2,
      div_self hr.ne', div_self hs.ne']
    simp [fscale, fadd]
    norm_num
  refine ⟨hbat, fun h3 h4 hw => ?_⟩
  have hbowl : bowlScore tbl p = some 1 := by
    unfold bowlScore fdiv
    rw [if_neg hw.ne', if_neg heco.ne', h3, ← h4,
      div_self hw.ne', div_self heco.ne']
    simp [fscale, fadd]
    norm_num
  rw [perfIndex, hbat, hbowl]
  simp [fadd]

/-- Witness for C7 at the concrete two-player table. -/
theorem C7_top_player_witness :
    batScore topTable ⟨"Ace", "CSK", 500, 20, 150, 6⟩ = some 1 ∧
    perfIndex topTable ⟨"Ace", "CSK", 500, 20, 150, 6⟩ = some 1 := by
  have h := C7_top_player topTable ⟨"Ace", "CSK", 500, 20, 150, 6⟩
    (by decide) (by decide) (by decide) (by decide) (by decide)
  exact ⟨h.1, h.2 (by decide) (by decide) (by decide)⟩

/-- C8 counterexample: a table whose runs columns are not numeric passes
validation (the winner column is even computed) and the script later dies
of an unhandled TypeError at the margin subtraction — validation never
fails for non-numeric runs. -/
theorem C8_counterexample :
    runsNumeric badRunsTable = false ∧
    runPipeline badRunsTable = .typeCrash ∧
    ∀ m : List String, runPipeline badRunsTable ≠ .invalidTable m := by
  refine ⟨by decide, by decide, fun m h => ?_⟩
  rw [(by decide : runPipeline badRunsTable = PipeResult.typeCrash)] at h
  exact PipeResult.noConfusion h

theorem applyRows_isSome {β : Type} (f : Nat → Option β) :
    ∀ l : List Nat, (∀ a ∈ l, (f a).isSome) → ∃ ys, applyRows f l = some ys := by
  intro l
  induction l with
  | nil => intro _; exact ⟨[], rfl⟩
  | cons a l ih =>
    intro h
    have ha := h a (List.mem_cons_self a l)
    obtain ⟨b, hb⟩ := Option.isSome_iff_exists.mp ha
    obtain ⟨ys, hys⟩ := ih (fun x hx => h x (List.mem_cons_of_mem a hx))
    exact ⟨b :: ys, by simp [applyRows, hb, hys]⟩

/-- C8 amended: validation fails, before any derived computation, exactly
when a required column name is absent; the numeric type of the runs
columns is never validated (a non-numeric table proceeds past
validation), and when all required columns are present and the runs are
numeric the pipeline produces the derived columns. -/
theorem C8_amended (t : RawTable) :
    (¬ (∀ c ∈ requiredCols, (colNames t).contains c) →
      ∃ m, m ≠ [] ∧ runPipeline t = .invalidTable m) ∧
    ((∀ c ∈ requiredCols, (colNames t).contains c) →
      ∀ m, runPipeline t ≠ .invalidTable m) ∧
    ((∀ c ∈ requiredCols, (colNames t).contains c) → runsNumeric t = true →
      ∃ ws ms, runPipeline t = .ok ws ms) := by
  have hmiss : ∀ c, c ∈ requiredCols.filter (fun c => !(colNames t).contains c) ↔
      (c ∈ requiredCols ∧ ¬ ((colNames t).contains c = true)) := by
    intro c; simp [List.mem_filter]
  refine ⟨?_, ?_, ?_⟩
  · intro h
    push_neg at h
    obtain ⟨c, hc, hnc⟩ := h
    have hmem : c ∈ requiredCols.filter (fun c => !(colNames t).contains c) :=
      (hmiss c).mpr ⟨hc, hnc⟩
    have hne : requiredCols.filter (fun c => !(colNames t).contains c) ≠ [] :=
      List.ne_nil_of_mem hmem
    refine ⟨_, hne, ?_⟩
    unfold runPipeline
    rw [if_neg (by simpa [List.isEmpty_iff] using hne)]
  · intro h m
    have hnil : requiredCols.filter (fun c => !(colNames t).contains c) = [] := by
      rw [List.filter_eq_nil_iff]
      intro c hc
      simp [List.elem_iff.mp (h c hc)]
    unfold runPipeline
    rw [hnil]
    cases hw : computeWinners t with
    | none => simp
    | some ws =>
      cases hm : computeMargins t with
      | none => simp [hw]
      | some ms => simp [hw, hm]
  · intro h hnum
    have hnil : requiredCols.filter (fun c => !(colNames t).contains c) = [] := by
      rw [List.filter_eq_nil_iff]
      intro c hc
      simp [List.elem_iff.mp (h c hc)]
    have hnum1 : ∀ c ∈ getCol t "runs_team1", ∃ q, c = Cell.num q := by
      intro c hc
      have := List.all_eq_true.mp hnum c (List.mem_append_left _ hc)
      cases c with
      | num q => exact ⟨q, rfl⟩
      | txt s => simp at this
    have hnum2 : ∀ c ∈ getCol t "runs_team2", ∃ q, c = Cell.num q := by
      intro c hc
      have := List.all_eq_true.mp hnum c (List.mem_append_right _ hc)
      cases c with
      | num q => exact ⟨q, rfl⟩
      | txt s => simp at this
    have hcellnum : ∀ (l : List Cell) (i : Nat),
        (∀ c ∈ l, ∃ q, c = Cell.num q) → ∃ q, l.getD i (.num 0) = Cell.num q := by
      intro l i hl
      by_cases hi : i < l.length
      · rw [List.getD_eq_getElem l _ hi]
        exact hl _ (List.getElem_mem hi)
      · rw [List.getD_eq_default]
        · exact ⟨0, rfl⟩
        · omega
    have hws : ∃ ws, computeWinners t = some ws := by
      apply applyRows_isSome
      intro i _
      obtain ⟨q1, hq1⟩ := hcellnum (getCol t "runs_team1") i hnum1
      obtain ⟨q2, hq2⟩ := hcellnum (getCol t "runs_team2") i hnum2
      rw [hq1, hq2]
      rfl
    have hms : ∃ ms, computeMargins t = some ms := by
      apply applyRows_isSome
      intro i _
      obtain ⟨q1, hq1⟩ := hcellnum (getCol t "runs_team1") i hnum1
      obtain ⟨q2, hq2⟩ := hcellnum (getCol t "runs_team2") i hnum2
      rw [hq1, hq2]
      rfl
    obtain ⟨ws, hw⟩ := hws
    obtain ⟨ms, hm⟩ := hms
    refine ⟨ws, ms, ?_⟩
    unfold runPipeline
    rw [hnil]
    simp [hw, hm]

/-- Witness for C8 amended at two concrete tables. -/
theorem C8_amended_witness :
    (∃ ws ms, runPipeline goodTable = .ok ws ms) ∧
    (∃ m, m ≠ [] ∧ runPipeline shortTable = .invalidTable m) := by
  constructor
  · exact (C8_amended goodTable).2.2 (by decide) (by decide)
  · exact (C8_amended shortTable).1 (by decide)

theorem sum_take_drop_eq (xs : List ℚ) (a : Nat) :
    ∀ m : Nat, a + m ≤ xs.length →
      ((xs.drop a).take m).sum = ∑ k ∈ Finset.range m, xs.getD (a + k) 0 := by
  intro m
  induction m with
  | zero => intro _; simp
  | succ m ih =>
    intro h
    have hm : a + m < xs.length := by omega
    rw [Finset.sum_range_succ, ← ih (by omega), List.take_succ]
    have hd : (xs.drop a)[m]? = some (xs.getD (a + m) 0) := by
      rw [List.getElem?_drop, List.getElem?_eq_getElem hm,
        List.getD_eq_getElem xs 0 hm]
    rw [hd]
    simp

theorem rollingMean5_getD (ys : List ℚ) (j : Nat) (hj : j < ys.length) :
    (rollingMean5 ys).getD j none =
      if j + 1 < 5 then none
      else some (((ys.drop (j + 1 - 5)).take 5).sum / 5) := by
  unfold rollingMean5
  rw [List.getD_eq_getElem _ _ (by simpa using hj)]
  simp

/-- C4: the rolling average has one entry per observation; at position
i ≥ 4 it is the arithmetic mean of the five observations at positions
i−4..i; at position i < 4 it is the undefined marker `none` (hence not 0
nor any other number); and it is causal — truncating the series just
after position i does not change the value at i. -/
theorem C4_rolling_average (xs : List ℚ) (i : Nat) (hi : i < xs.length) :
    (rollingMean5 xs).length = xs.length ∧
    (4 ≤ i → (rollingMean5 xs).getD i none
      = some ((∑ k ∈ Finset.range 5, xs.getD (i - 4 + k) 0) / 5)) ∧
    (i < 4 → (rollingMean5 xs).getD i none = none ∧
      ∀ q : ℚ, (rollingMean5 xs).getD i none ≠ some q) ∧
    (rollingMean5 (xs.take (i + 1))).getD i none
      = (rollingMean5 xs).getD i none := by
  have hgetD_take : ∀ j t : Nat, j < t →
      (xs.take t).getD j 0 = xs.getD j 0 := by
    intro j t hjt
    rw [List.getD_eq_getElem?_getD, List.getD_eq_getElem?_getD,
      List.getElem?_take, if_pos hjt]
  refine ⟨by simp [rollingMean5], fun h4 => ?_, fun h4 => ?_, ?_⟩
  · have h45 : i + 1 - 5 = i - 4 := by omega
    rw [rollingMean5_getD xs i hi, if_neg (by omega), h45,
      sum_take_drop_eq xs (i - 4) 5 (by omega)]
  · have := rollingMean5_getD xs i hi
    rw [if_pos (by omega)] at this
    exact ⟨this, fun q hq => by rw [this] at hq; exact Option.noConfusion hq⟩
  · have hlen : i < (xs.take (i + 1)).length := by
      simp [List.length_take]
      omega
    rw [rollingMean5_getD _ i hlen, rollingMean5_getD xs i hi]
    by_cases h5 : i + 1 < 5
    · rw [if_pos h5, if_pos h5]
    · rw [if_neg h5, if_neg h5]
      have hb1 : (i + 1 - 5) + 5 ≤ (xs.take (i + 1)).length := by
        simp [List.length_take]
        omega
      rw [sum_take_drop_eq _ _ 5 hb1, sum_take_drop_eq xs _ 5 (by omega)]
      congr 2
      apply Finset.sum_congr rfl
      intro k hk
      have hk5 : k < 5 := Finset.mem_range.mp hk
      exact hgetD_take _ _ (by omega)

theorem sqDev_nonneg (xs : List ℚ) : 0 ≤ sqDev xs := by
  apply List.sum_nonneg
  intro x hx
  obtain ⟨y, _, rfl⟩ := List.mem_map.mp hx
  positivity

theorem popVar_nonneg (xs : List ℚ) : 0 ≤ popVar xs :=
  div_nonneg (sqDev_nonneg xs) (by positivity)

theorem popVar_zero_all_eq (xs : List ℚ) (hne : xs ≠ [])
    (h0 : popVar xs = 0) : ∀ x ∈ xs, x = meanQ xs := by
  intro x hx
  have hn : (0 : ℚ) < (xs.length : ℚ) := by
    have := List.length_pos.mpr hne
    exact_mod_cast this
  have hsq : sqDev xs = 0 := by
    unfold popVar at h0
    field_simp at h0
    exact h0
  have hterm : (x - meanQ xs) ^ 2 ≤ 0 := by
    have hmem : (x - meanQ xs) ^ 2 ∈ xs.map (fun y => (y - meanQ xs) ^ 2) :=
      List.mem_map.mpr ⟨x, hx, rfl⟩
    calc (x - meanQ xs) ^ 2
        ≤ (xs.map (fun y => (y - meanQ xs) ^ 2)).sum := by
          apply List.single_le_sum _ _ hmem
          intro y hy
          obtain ⟨z, _, rfl⟩ := List.mem_map.mp hy
          positivity
      _ = 0 := hsq
  have : (x - meanQ xs) ^ 2 = 0 := le_antisymm hterm (by positivity)
  have := pow_eq_zero_iff (n := 2) (by norm_num) |>.mp this
  linarith

theorem zFlag_of_popVar_zero (xs : List ℚ) (h0 : popVar xs = 0) (x : ℚ) :
    zFlag xs x = false := by
  simp [zFlag, zScoreSq, h0]

/-- The decidable mask agrees with the real-valued standardized-score
condition `|x − mean| > 2·sqrt(popVar)` whenever the variance is not
zero. -/
theorem zFlag_iff_real (xs : List ℚ) (x : ℚ) (hp : popVar xs ≠ 0) :
    zFlag xs x = true ↔
      2 * Real.sqrt ((popVar xs : ℝ)) < |(x : ℝ) - (meanQ xs : ℝ)| := by
  have hpos : (0 : ℚ) < popVar xs := lt_of_le_of_ne (popVar_nonneg xs) (Ne.symm hp)
  have hq : zFlag xs x = true ↔ 4 * popVar xs < (x - meanQ xs) ^ 2 := by
    simp only [zFlag, zScoreSq, if_neg hp, decide_eq_true_eq]
    rw [lt_div_iff₀ hpos]
  rw [hq]
  have hcast : (4 * popVar xs < (x - meanQ xs) ^ 2) ↔
      ((4 : ℝ) * (popVar xs : ℝ) < ((x : ℝ) - (meanQ xs : ℝ)) ^ 2) := by
    constructor <;> intro h <;> exact_mod_cast h
  rw [hcast]
  have hpR : (0 : ℝ) ≤ (popVar xs : ℝ) := by exact_mod_cast popVar_nonneg xs
  constructor
  · intro h
    have h1 : Real.sqrt (4 * (popVar xs : ℝ)) <
        Real.sqrt (((x : ℝ) - (meanQ xs : ℝ)) ^ 2) :=
      Real.sqrt_lt_sqrt (by positivity) h
    rwa [Real.sqrt_mul (by norm_num) _,
      show Real.sqrt 4 = 2 by
        rw [show (4 : ℝ) = 2 ^ 2 by norm_num, Real.sqrt_sq (by norm_num)],
      Real.sqrt_sq_eq_abs] at h1
  · intro h
    have h2 : (2 * Real.sqrt ((popVar xs : ℝ))) ^ 2 <
        |(x : ℝ) - (meanQ xs : ℝ)| ^ 2 := by
      apply pow_lt_pow_left₀ h (by positivity)
      norm_num
    rwa [mul_pow, Real.sq_sqrt hpR, sq_abs, show (2:ℝ)^2 = 4 by norm_num] at h2

/-- C5: for a series of at least two observations the outlier list is a
sublist of the series (original order preserved, no values invented); a
value is kept — with all its occurrences — exactly when its absolute
standardized score exceeds 2; and a zero-variance series yields no
outliers (the NaN z-scores compare false; no division error). -/
theorem C5_outlier_detector (xs : List ℚ) (h2 : 2 ≤ xs.length) :
    (popVar xs = 0 → outliers xs = []) ∧
    (outliers xs).Sublist xs ∧
    (∀ v : ℚ,
      (2 * Real.sqrt ((popVar xs : ℝ)) < |(v : ℝ) - (meanQ xs : ℝ)| →
        (outliers xs).count v = xs.count v) ∧
      (¬ 2 * Real.sqrt ((popVar xs : ℝ)) < |(v : ℝ) - (meanQ xs : ℝ)| →
        (outliers xs).count v = 0)) := by
  have hne : xs ≠ [] := by
    intro h
    rw [h] at h2
    simp at h2
  have hzero : popVar xs = 0 → outliers xs = [] := by
    intro h0
    unfold outliers
    rw [List.filter_eq_nil_iff]
    intro x _
    simp [zFlag_of_popVar_zero xs h0 x]
  refine ⟨hzero, List.filter_sublist xs, fun v => ⟨?_, ?_⟩⟩
  · intro hcond
    by_cases hp : popVar xs = 0
    · have hvmem : v ∉ xs := by
        intro hv
        have hveq := popVar_zero_all_eq xs hne hp v hv
        rw [hveq] at hcond
        simp [hp] at hcond
      rw [hzero hp]
      simp [List.count_eq_zero.mpr hvmem]
    · have hflag : zFlag xs v = true := (zFlag_iff_real xs v hp).mpr hcond
      unfold outliers
      exact List.count_filter hflag
  · intro hcond
    by_cases hp : popVar xs = 0
    · rw [hzero hp]
      rfl
    · have hflag : zFlag xs v = false := by
        rw [← Bool.not_eq_true]
        intro hf
        exact hcond ((zFlag_iff_real xs v hp).mp hf)
      apply List.count_eq_zero.mpr
      intro hv
      have := List.of_mem_filter hv
      rw [hflag] at this
      exact Bool.noConfusion this

theorem meanQ_seriesA : meanQ [0, 0, 0, 0, 0, 0, 0, 0, 0, 10] = 1 := by
  norm_num [meanQ, List.sum_cons, List.sum_nil]

theorem popVar_seriesA : popVar [0, 0, 0, 0, 0, 0, 0, 0, 0, 10] = 9 := by
  have hs : sqDev [0, 0, 0, 0, 0, 0, 0, 0, 0, 10] = 90 := by
    norm_num [sqDev, meanQ_seriesA, List.sum_cons, List.sum_nil]
  norm_num [popVar, hs]

/-- Witness for C5 at the series [0×9, 10] (population variance 9). -/
theorem C5_outlier_detector_witness :
    (outliers [0, 0, 0, 0, 0, 0, 0, 0, 0, 10]).count 10
      = ([0, 0, 0, 0, 0, 0, 0, 0, 0, 10] : List ℚ).count 10 ∧
    (outliers [0, 0, 0, 0, 0, 0, 0, 0, 0, 10]).count 0 = 0 := by
  have h := C5_outlier_detector [0, 0, 0, 0, 0, 0, 0, 0, 0, 10] (by norm_num)
  have hsq : Real.sqrt ((popVar [0, 0, 0, 0, 0, 0, 0, 0, 0, 10] : ℝ)) = 3 := by
    rw [popVar_seriesA, show (((9 : ℚ) : ℝ)) = 3 ^ 2 by norm_num,
      Real.sqrt_sq (by norm_num)]
  constructor
  · apply (h.2.2 10).1
    rw [hsq, meanQ_seriesA]
    norm_num
  · apply (h.2.2 0).2
    rw [hsq, meanQ_seriesA]
    norm_num

theorem meanQ_seriesB : meanQ [6, 6, 6, 6, 4, 4, 4, 4, 10, 0] = 5 := by
  norm_num [meanQ, List.sum_cons, List.sum_nil]

theorem sqDev_seriesB : sqDev [6, 6, 6, 6, 4, 4, 4, 4, 10, 0] = 58 := by
  norm_num [sqDev, meanQ_seriesB, List.sum_cons, List.sum_nil]

theorem popVar_seriesB : popVar [6, 6, 6, 6, 4, 4, 4, 4, 10, 0] = 29 / 5 := by
  norm_num [popVar, sqDev_seriesB]

theorem zFlag_seriesB (x : ℚ) : zFlag [6, 6, 6, 6, 4, 4, 4, 4, 10, 0] x
    = decide (4 < (x - 5) ^ 2 / (29 / 5)) := by
  rw [zFlag, zScoreSq, popVar_seriesB, meanQ_seriesB, if_neg (by norm_num)]

theorem outliers_seriesB :
    outliers [6, 6, 6, 6, 4, 4, 4, 4, 10, 0] = [10, 0] := by
  have h6 : zFlag [6, 6, 6, 6, 4, 4, 4, 4, 10, 0] 6 = false := by
    rw [zFlag_seriesB]; norm_num
  have h4 : zFlag [6, 6, 6, 6, 4, 4, 4, 4, 10, 0] 4 = false := by
    rw [zFlag_seriesB]; norm_num
  have h10 : zFlag [6, 6, 6, 6, 4, 4, 4, 4, 10, 0] 10 = true := by
    rw [zFlag_seriesB]; norm_num
  have h0 : zFlag [6, 6, 6, 6, 4, 4, 4, 4, 10, 0] 0 = true := by
    rw [zFlag_seriesB]; norm_num
  rw [outliers]
  simp [List.filter_cons, h6, h4, h10, h0]

theorem sampleRule_seriesB :
    outliersSampleRule [6, 6, 6, 6, 4, 4, 4, 4, 10, 0] = [] := by
  rw [outliersSampleRule]
  norm_num [List.filter_cons, sqDev_seriesB, meanQ_seriesB]

/-- C10: the z-score mask of line 126 standardizes by the population
standard deviation — divisor n, `sqrt(sqDev/n)` — not the sample one;
the choice is observable: on [6,6,6,6,4,4,4,4,10,0] the code flags
exactly 10 and 0 while the sample (divisor n−1) rule flags nothing. -/
theorem C10_population_std (xs : List ℚ) (x : ℚ) (hp : popVar xs ≠ 0) :
    (zFlag xs x = true ↔
      2 * Real.sqrt ((sqDev xs : ℝ) / (xs.length : ℝ))
        < |(x : ℝ) - (meanQ xs : ℝ)|) ∧
    outliers [6, 6, 6, 6, 4, 4, 4, 4, 10, 0] = [10, 0] ∧
    outliersSampleRule [6, 6, 6, 6, 4, 4, 4, 4, 10, 0] = [] := by
  refine ⟨?_, outliers_seriesB, sampleRule_seriesB⟩
  have hcast : ((popVar xs : ℝ)) = (sqDev xs : ℝ) / (xs.length : ℝ) := by
    unfold popVar
    push_cast
    ring
  rw [← hcast]
  exact zFlag_iff_real xs x hp

/-- Witness for C10 at the discriminating series and the value 10. -/
theorem C10_population_std_witness :
    zFlag [6, 6, 6, 6, 4, 4, 4, 4, 10, 0] 10 = true ∧
    2 * Real.sqrt ((sqDev [6, 6, 6, 6, 4, 4, 4, 4, 10, 0] : ℝ) /
        (([6, 6, 6, 6, 4, 4, 4, 4, 10, 0] : List ℚ).length : ℝ))
      < |((10 : ℚ) : ℝ) - (meanQ [6, 6, 6, 6, 4, 4, 4, 4, 10, 0] : ℝ)| := by
  have hf : zFlag [6, 6, 6, 6, 4, 4, 4, 4, 10, 0] 10 = true := by
    rw [zFlag_seriesB]; norm_num
  have h := C10_population_std [6, 6, 6, 6, 4, 4, 4, 4, 10, 0] 10
    (by rw [popVar_seriesB]; norm_num)
  exact ⟨hf, h.1.mp hf⟩

/-- Witness for C4 at a concrete nine-observation series. -/
theorem C4_rolling_average_witness :
    (rollingMean5 [10, 20, 30, 40, 50, 60, 70, 80, 90]).getD 2 none = none ∧
    (rollingMean5 [10, 20, 30, 40, 50, 60, 70, 80, 90]).getD 6 none
      = some 50 := by
  have h2 := C4_rolling_average [10, 20, 30, 40, 50, 60, 70, 80, 90] 2
    (by norm_num)
  have h6 := C4_rolling_average [10, 20, 30, 40, 50, 60, 70, 80, 90] 6
    (by norm_num)
  refine ⟨(h2.2.2.1 (by norm_num)).1, ?_⟩
  rw [h6.2.1 (by norm_num)]
  norm_num [Finset.sum_range_succ]

theorem sumIdx_closed (n : Nat) : sumIdx n = n * ((n : ℚ) - 1) / 2 := by
  induction n with
  | zero => simp [sumIdx]
  | succ m ih =>
    rw [sumIdx, Finset.sum_range_succ, ← sumIdx, ih]
    push_cast
    ring

theorem sumIdxSq_closed (n : Nat) :
    sumIdxSq n = n * ((n : ℚ) - 1) * (2 * n - 1) / 6 := by
  induction n with
  | zero => simp [sumIdxSq]
  | succ m ih =>
    rw [sumIdxSq, Finset.sum_range_succ, ← sumIdxSq, ih]
    push_cast
    ring

theorem denom_pos (n : Nat) (h : 2 ≤ n) :
    0 < (n : ℚ) * sumIdxSq n - sumIdx n ^ 2 := by
  rw [sumIdx_closed, sumIdxSq_closed]
  have hn : (2 : ℚ) ≤ (n : ℚ) := by exact_mod_cast h
  have key : (n : ℚ) * ((n : ℚ) * ((n : ℚ) - 1) * (2 * (n : ℚ) - 1) / 6)
      - ((n : ℚ) * ((n : ℚ) - 1) / 2) ^ 2
      = (n : ℚ) ^ 2 * ((n : ℚ) - 1) * ((n : ℚ) + 1) / 12 := by ring
  rw [key]
  have h1 : (0 : ℚ) < (n : ℚ) - 1 := by linarith
  have h2 : (0 : ℚ) < (n : ℚ) + 1 := by linarith
  have h3 : (0 : ℚ) < (n : ℚ) ^ 2 := by positivity
  have := mul_pos (mul_pos h3 h1) h2
  linarith

/-- The fitted coefficients satisfy the least-squares normal equations:
the residuals sum to zero and are orthogonal to the index regressor. -/
theorem ols_normal (xs : List ℚ) (h : 2 ≤ xs.length) :
    (∑ i ∈ Finset.range xs.length,
        (xs.getD i 0 - (olsIntercept xs + olsSlope xs * i))) = 0 ∧
    (∑ i ∈ Finset.range xs.length,
        (i : ℚ) * (xs.getD i 0 - (olsIntercept xs + olsSlope xs * i))) = 0 := by
  have hn0 : ((xs.length : ℚ)) ≠ 0 := by
    have : (2 : ℚ) ≤ (xs.length : ℚ) := by exact_mod_cast h
    linarith
  have hd : ((xs.length : ℚ) * sumIdxSq xs.length - sumIdx xs.length ^ 2) ≠ 0 :=
    ne_of_gt (denom_pos _ h)
  constructor
  · have expand : (∑ i ∈ Finset.range xs.length,
        (xs.getD i 0 - (olsIntercept xs + olsSlope xs * i)))
        = sumY xs - ((xs.length : ℚ) * olsIntercept xs
            + olsSlope xs * sumIdx xs.length) := by
      simp only [Finset.sum_sub_distrib, Finset.sum_add_distrib,
        Finset.sum_const, Finset.card_range, nsmul_eq_mul, ← Finset.mul_sum,
        sumY, sumIdx]
    rw [expand, olsIntercept]
    field_simp
  · have expand : (∑ i ∈ Finset.range xs.length,
        (i : ℚ) * (xs.getD i 0 - (olsIntercept xs + olsSlope xs * i)))
        = sumIdxY xs - (olsIntercept xs * sumIdx xs.length
            + olsSlope xs * sumIdxSq xs.length) := by
      have step : ∀ i ∈ Finset.range xs.length,
          (i : ℚ) * (xs.getD i 0 - (olsIntercept xs + olsSlope xs * i))
          = (i : ℚ) * xs.getD i 0 - (olsIntercept xs * i
              + olsSlope xs * (i : ℚ) ^ 2) := by
        intro i _
        ring
      rw [Finset.sum_congr rfl step]
      simp only [Finset.sum_sub_distrib, Finset.sum_add_distrib,
        ← Finset.mul_sum, sumIdxY, sumIdx, sumIdxSq]
    rw [expand, olsIntercept, olsSlope]
    field_simp
    ring

theorem quad_eq_sum (n : Nat) (p q : ℚ) :
    (n : ℚ) * p ^ 2 + 2 * p * q * sumIdx n + q ^ 2 * sumIdxSq n
      = ∑ i ∈ Finset.range n, (p + q * i) ^ 2 := by
  have step : ∀ i ∈ Finset.range n, (p + q * (i : ℚ)) ^ 2
      = p ^ 2 + (2 * p * q) * (i : ℚ) + q ^ 2 * (i : ℚ) ^ 2 := by
    intro i _
    ring
  rw [Finset.sum_congr rfl step]
  simp only [Finset.sum_add_distrib, Finset.sum_const, Finset.card_range,
    nsmul_eq_mul, ← Finset.mul_sum, sumIdx, sumIdxSq]

/-- Any candidate line's error decomposes as the fitted error plus a
quadratic form in the coefficient differences. -/
theorem sse_decomp (xs : List ℚ) (h : 2 ≤ xs.length) (a b : ℚ) :
    sse xs a b = sse xs (olsIntercept xs) (olsSlope xs)
      + ((xs.length : ℚ) * (olsIntercept xs - a) ^ 2
         + 2 * (olsIntercept xs - a) * (olsSlope xs - b) * sumIdx xs.length
         + (olsSlope xs - b) ^ 2 * sumIdxSq xs.length) := by
  obtain ⟨e1, e2⟩ := ols_normal xs h
  have key : ∀ i ∈ Finset.range xs.length,
      (xs.getD i 0 - (a + b * i)) ^ 2
        = (xs.getD i 0 - (olsIntercept xs + olsSlope xs * i)) ^ 2
          + ((2 * (olsIntercept xs - a))
              * (xs.getD i 0 - (olsIntercept xs + olsSlope xs * i))
             + (2 * (olsSlope xs - b))
              * ((i : ℚ) * (xs.getD i 0 - (olsIntercept xs + olsSlope xs * i))))
          + ((olsIntercept xs - a) + (olsSlope xs - b) * i) ^ 2 := by
    intro i _
    ring
  rw [sse, Finset.sum_congr rfl key]
  simp only [Finset.sum_add_distrib, ← Finset.mul_sum]
  rw [e1, e2, ← quad_eq_sum, sse]
  ring

/-- The fitted coefficients minimize the sum of squared errors. -/
theorem sse_min (xs : List ℚ) (h : 2 ≤ xs.length) (a b : ℚ) :
    sse xs (olsIntercept xs) (olsSlope xs) ≤ sse xs a b := by
  rw [sse_decomp xs h a b]
  have hq : (0 : ℚ) ≤ (xs.length : ℚ) * (olsIntercept xs - a) ^ 2
      + 2 * (olsIntercept xs - a) * (olsSlope xs - b) * sumIdx xs.length
      + (olsSlope xs - b) ^ 2 * sumIdxSq xs.length := by
    rw [quad_eq_sum]
    exact Finset.sum_nonneg (fun i _ => sq_nonneg _)
  linarith

/-- Minimizers of the sum of squared errors are unique: any minimizing
pair is the fitted one. -/
theorem sse_unique (xs : List ℚ) (h : 2 ≤ xs.length) (a b : ℚ)
    (hmin : ∀ u v : ℚ, sse xs a b ≤ sse xs u v) :
    a = olsIntercept xs ∧ b = olsSlope xs := by
  have h1 : sse xs (olsIntercept xs) (olsSlope xs) ≤ sse xs a b :=
    sse_min xs h a b
  have h2 : sse xs a b ≤ sse xs (olsIntercept xs) (olsSlope xs) := hmin _ _
  have hdec := sse_decomp xs h a b
  have hzero : (xs.length : ℚ) * (olsIntercept xs - a) ^ 2
      + 2 * (olsIntercept xs - a) * (olsSlope xs - b) * sumIdx xs.length
      + (olsSlope xs - b) ^ 2 * sumIdxSq xs.length = 0 := by linarith
  have hd : 0 < (xs.length : ℚ) * sumIdxSq xs.length - sumIdx xs.length ^ 2 :=
    denom_pos _ h
  have hn : (0 : ℚ) < (xs.length : ℚ) := by
    have : (2 : ℚ) ≤ (xs.length : ℚ) := by exact_mod_cast h
    linarith
  have key : ((xs.length : ℚ) * (olsIntercept xs - a)
        + (olsSlope xs - b) * sumIdx xs.length) ^ 2
      + (olsSlope xs - b) ^ 2
        * ((xs.length : ℚ) * sumIdxSq xs.length - sumIdx xs.length ^ 2)
      = (xs.length : ℚ) * ((xs.length : ℚ) * (olsIntercept xs - a) ^ 2
          + 2 * (olsIntercept xs - a) * (olsSlope xs - b) * sumIdx xs.length
          + (olsSlope xs - b) ^ 2 * sumIdxSq xs.length) := by
    ring
  rw [hzero, mul_zero] at key
  have hq2 : (olsSlope xs - b) ^ 2
      * ((xs.length : ℚ) * sumIdxSq xs.length - sumIdx xs.length ^ 2) = 0 := by
    nlinarith [sq_nonneg ((xs.length : ℚ) * (olsIntercept xs - a)
      + (olsSlope xs - b) * sumIdx xs.length), sq_nonneg (olsSlope xs - b)]
  have hq0 : olsSlope xs - b = 0 := by
    rcases mul_eq_zero.mp hq2 with h' | h'
    · exact pow_eq_zero_iff two_ne_zero |>.mp h'
    · exact absurd h' (ne_of_gt hd)
  have hp0 : olsIntercept xs - a = 0 := by
    rw [hq0] at hzero
    have hps : (xs.length : ℚ) * (olsIntercept xs - a) ^ 2 = 0 := by
      nlinarith [hzero]
    rcases mul_eq_zero.mp hps with h' | h'
    · exact absurd h' (ne_of_gt hn)
    · exact pow_eq_zero_iff two_ne_zero |>.mp h'
  constructor <;> linarith

/-- C6: with at least 5 observations the prediction is the value, at
index n (one past the last observation), of the unique line minimizing
the sum of squared errors over indices 0..n−1; with fewer than 5 it is
the "insufficient data" signal `none`; and on the linear series
[10,20,30,40,50] the prediction is exactly 60. -/
theorem C6_trend_predictor (xs : List ℚ) :
    (5 ≤ xs.length →
      ∃ a b : ℚ,
        (∀ u v : ℚ, sse xs a b ≤ sse xs u v) ∧
        (∀ a' b' : ℚ, (∀ u v : ℚ, sse xs a' b' ≤ sse xs u v) →
          a' + b' * xs.length = a + b * xs.length) ∧
        predictNext xs = some (a + b * xs.length)) ∧
    (xs.length < 5 → predictNext xs = none) ∧
    predictNext [10, 20, 30, 40, 50] = some 60 := by
  refine ⟨fun h5 => ?_, fun h5 => by rw [predictNext, if_pos h5], ?_⟩
  · have h2 : 2 ≤ xs.length := by omega
    refine ⟨olsIntercept xs, olsSlope xs, sse_min xs h2, ?_, ?_⟩
    · intro a' b' hmin
      obtain ⟨ha, hb⟩ := sse_unique xs h2 a' b' hmin
      rw [ha, hb]
    · rw [predictNext, if_neg (by omega)]
  · have hy : sumY [10, 20, 30, 40, 50] = 150 := by
      norm_num [sumY, Finset.sum_range_succ]
    have hxy : sumIdxY [10, 20, 30, 40, 50] = 400 := by
      norm_num [sumIdxY, Finset.sum_range_succ]
    have hx : sumIdx 5 = 10 := by norm_num [sumIdx, Finset.sum_range_succ]
    have hxx : sumIdxSq 5 = 30 := by norm_num [sumIdxSq, Finset.sum_range_succ]
    have hslope : olsSlope [10, 20, 30, 40, 50] = 10 := by
      rw [olsSlope]
      norm_num [hy, hxy, hx, hxx]
    rw [predictNext, if_neg (by norm_num), olsIntercept]
    norm_num [hy, hx, hslope]

/-- Witness for C6 at the linear series, discharging the length
hypothesis. -/
theorem C6_trend_predictor_witness :
    predictNext [10, 20, 30, 40, 50] = some 60 ∧
    ∃ a b : ℚ,
      (∀ u v : ℚ, sse [10, 20, 30, 40, 50] a b ≤ sse [10, 20, 30, 40, 50] u v) ∧
      predictNext [10, 20, 30, 40, 50]
        = some (a + b * ([10, 20, 30, 40, 50] : List ℚ).length) := by
  have h := C6_trend_predictor [10, 20, 30, 40, 50]
  refine ⟨h.2.2, ?_⟩
  obtain ⟨a, b, hmin, _, hpred⟩ := h.1 (by norm_num)
  exact ⟨a, b, hmin, hpred⟩

/-- C3: the extraction is not stable on equal dates.  On seventeen
same-date rows the series comes back in match order
[0,14,13,12,11,10,9,15,8,6,5,4,3,2,1,7,16] — a permutation of the input
(nothing dropped or duplicated) that differs from the original order,
because pandas `sort_values` defaults to numpy's unstable introspective
quicksort. -/
theorem C3_sort_not_stable :
    (teamSeries tieRows "A").map MatchRow.matchId
      = [0, 14, 13, 12, 11, 10, 9, 15, 8, 6, 5, 4, 3, 2, 1, 7, 16] ∧
    (teamSeries tieRows "A").map MatchRow.matchId ≠ List.range 17 ∧
    ((teamSeries tieRows "A").map MatchRow.matchId).Perm (List.range 17) := by
  refine ⟨by decide, by decide, ?_⟩
  rw [(by decide : (teamSeries tieRows "A").map MatchRow.matchId
    = [0, 14, 13, 12, 11, 10, 9, 15, 8, 6, 5, 4, 3, 2, 1, 7, 16])]
  decide
